import Mathlib

/-!
Verification of the Matrix encrypted-attachment module
(`crypto/attachment/attachments.go`).

The Go code is shallowly embedded: bytes are `Nat`s (reduced mod 256 where
the code truncates), byte buffers are lists, Go's fixed-size arrays
(`[32]byte`, `[16]byte`) are lists paired with a length fact, and the
mutation of the `EncryptedFile` struct is made explicit by returning the
updated descriptor.  The external primitives the code calls
(`encoding/base64` raw encodings, `crypto/sha256`, `crypto/aes` +
`cipher.NewCTR`) are implemented concretely below, following their
standard definitions (RFC 4648, FIPS 180-4, FIPS 197 / NIST SP 800-38A),
so that every operation is executable.

Go functions that can panic (`Encrypt` dereferencing a nil `decoded`
cache) return `Option`, with `none` marking the panic.
-/

set_option maxRecDepth 40000

namespace Attachment

/-- Byte buffers of a statically known length: the embedding of Go's
fixed-size byte arrays such as `[32]byte`. -/
def Bytes (n : Nat) : Type := {l : List Nat // l.length = n}

instance (n : Nat) : DecidableEq (Bytes n) :=
  fun a b => decidable_of_iff (a.val = b.val) Subtype.ext_iff.symm

/-- Constant `keyLength` from the source. -/
def keyLength : Nat := 32

/-- Constant `hashLength` from the source. -/
def hashLength : Nat := 32

/-- Constant `ivLength` from the source. -/
def ivLength : Nat := 16

/-- Go's `base64.Encoding.EncodedLen` for the raw (unpadded) encodings:
`(n*8 + 5) / 6`. -/
def rawEncodedLen (n : Nat) : Nat := (n * 8 + 5) / 6

/-- Source variable `keyBase64Length` (= 43). -/
def keyBase64Length : Nat := rawEncodedLen keyLength

/-- Source variable `hashBase64Length` (= 43). -/
def hashBase64Length : Nat := rawEncodedLen hashLength

/-- Source variable `ivBase64Length` (= 22). -/
def ivBase64Length : Nat := rawEncodedLen ivLength

/-! ## Base64 (Go `encoding/base64`, raw = unpadded encodings)

`base64.RawStdEncoding` and `base64.RawURLEncoding` differ only in the
alphabet.  Decoding follows Go's default (non-strict) decoder: it
consumes 4-character quanta (a trailing quantum of 2 or 3 characters is
allowed, a lone trailing character is an error), rejects characters
outside the alphabet, and ignores non-zero trailing padding bits.  On a
decode error Go reports the bytes of the quanta already written; the
model returns those bytes together with a success flag. -/

/-- Alphabet of `base64.RawStdEncoding`. -/
def stdAlphabet : List Char :=
  "ABCDEFGHIJKLMNOPQRSTUVWXYZabcdefghijklmnopqrstuvwxyz0123456789+/".toList

/-- Alphabet of `base64.RawURLEncoding`. -/
def urlAlphabet : List Char :=
  "ABCDEFGHIJKLMNOPQRSTUVWXYZabcdefghijklmnopqrstuvwxyz0123456789-_".toList

/-- Map a 6-bit value to its alphabet character. -/
def b64EncChar (alph : List Char) (i : Nat) : Char := alph.getD i 'A'

/-- Map a character back to its 6-bit value; `none` for characters
outside the alphabet. -/
def b64DecChar (alph : List Char) (c : Char) : Option Nat :=
  alph.findIdx? (· = c)

/-- Unpadded base64 encoding, processing 3-byte groups into 4 characters
(2 or 3 characters for a trailing group of 1 or 2 bytes). -/
def b64EncodeGroups (alph : List Char) : List Nat → List Char
  | [] => []
  | [a] => [b64EncChar alph (a / 4), b64EncChar alph (a % 4 * 16)]
  | [a, b] =>
      [b64EncChar alph (a / 4), b64EncChar alph (a % 4 * 16 + b / 16),
       b64EncChar alph (b % 16 * 4)]
  | a :: b :: c :: rest =>
      b64EncChar alph (a / 4) :: b64EncChar alph (a % 4 * 16 + b / 16) ::
      b64EncChar alph (b % 16 * 4 + c / 64) :: b64EncChar alph (c % 64) ::
      b64EncodeGroups alph rest

/-- Embedding of `base64.RawStdEncoding.EncodeToString` /
`base64.RawURLEncoding.EncodeToString`. -/
def b64Encode (alph : List Char) (bytes : List Nat) : String :=
  String.mk (b64EncodeGroups alph bytes)

/-- Unpadded base64 decoding in 4-character quanta; returns the decoded
bytes of the quanta completed before any error, and a success flag. -/
def b64DecodeGroups (alph : List Char) : List Char → List Nat × Bool
  | [] => ([], true)
  | [_] => ([], false)
  | [c1, c2] =>
    match b64DecChar alph c1, b64DecChar alph c2 with
    | some a, some b => ([a * 4 + b / 16], true)
    | _, _ => ([], false)
  | [c1, c2, c3] =>
    match b64DecChar alph c1, b64DecChar alph c2, b64DecChar alph c3 with
    | some a, some b, some c =>
        ([a * 4 + b / 16, b % 16 * 16 + c / 4], true)
    | _, _, _ => ([], false)
  | c1 :: c2 :: c3 :: c4 :: rest =>
    match b64DecChar alph c1, b64DecChar alph c2, b64DecChar alph c3,
        b64DecChar alph c4 with
    | some a, some b, some c, some d =>
      let t := b64DecodeGroups alph rest
      ((a * 4 + b / 16) :: (b % 16 * 16 + c / 4) :: (c % 4 * 64 + d) :: t.1, t.2)
    | _, _, _, _ => ([], false)

/-- Embedding of Go's `base64.Raw*Encoding.Decode` on a string input. -/
def goBase64Decode (alph : List Char) (s : String) : List Nat × Bool :=
  b64DecodeGroups alph s.toList

/-- Writing `w` into a zero-initialised `n`-byte Go buffer: the buffer
keeps its zeros past the written prefix. -/
def fillBuf (n : Nat) (w : List Nat) : Bytes n :=
  ⟨(w ++ List.replicate n 0).take n, by
    simp [List.length_take]⟩

/-! ## SHA-256 (Go `crypto/sha256`, FIPS 180-4)

Words are `Nat`s kept below `2^32` by explicit reduction. -/

/-- Initial SHA-256 hash value (FIPS 180-4 section 5.3.3): the eight
words packed into one number, word `i` in bits `32*i .. 32*i+31`. -/
def shaH0Packed : Nat :=
  0x5be0cd191f83d9ab9b05688c510e527fa54ff53a3c6ef372bb67ae856a09e667

/-- Initial SHA-256 hash value as a word list. -/
def shaH0 : List Nat :=
  (List.range 8).map (fun i => shaH0Packed / 2 ^ (32 * i) % 2 ^ 32)

/-- SHA-256 round constants (FIPS 180-4 section 4.2.2), packed into one
number, constant `i` in bits `32*i .. 32*i+31`. -/
def shaKPacked : Nat :=
  0xc67178f2bef9a3f7a4506ceb90befffa8cc7020884c8781478a5636f748f82ee682e6ff35b9cca4f4ed8aa4a391c0cb334b0bcb52748774c1e376c0819a4c116106aa070f40e3585d6990624d192e819c76c51a3c24b8b70a81a664ba2bfe8a192722c8581c2c92e766a0abb650a735453380d134d2c6dfc2e1b213827b70a851429296706ca6351d5a79147c6e00bf3bf597fc7b00327c8a831c66d983e515276f988da5cb0a9dc4a7484aa2de92c6f240ca1cc0fc19dc6efbe4786e49b69c1c19bf1749bdc06a780deb1fe72be5d74550c7dc3243185be12835b01d807aa98ab1c5ed5923f82a459f111f13956c25be9b5dba5b5c0fbcf71374491428a2f98

/-- SHA-256 round constants as a word list. -/
def shaK : List Nat :=
  (List.range 64).map (fun i => shaKPacked / 2 ^ (32 * i) % 2 ^ 32)

/-- Addition modulo `2^32`. -/
def add32 (a b : Nat) : Nat := (a + b) % 2 ^ 32

/-- Right rotation of a 32-bit word. -/
def rotr32 (x n : Nat) : Nat := x / 2 ^ n + x % 2 ^ n * 2 ^ (32 - n)

/-- Logical right shift of a 32-bit word. -/
def shr32 (x n : Nat) : Nat := x / 2 ^ n

/-- Bitwise complement within 32 bits. -/
def not32 (x : Nat) : Nat := x ^^^ (2 ^ 32 - 1)

/-- Big-endian serialization of `x` into `n` bytes (most significant
first, truncating above `2^(8n)`). -/
def beBytes : Nat → Nat → List Nat
  | 0, _ => []
  | n + 1, x => beBytes n (x / 256) ++ [x % 256]

/-- Big-endian interpretation of a byte buffer as a number. -/
def beNat (l : List Nat) : Nat := l.foldl (fun acc b => acc * 256 + b) 0

/-- Group a byte buffer into big-endian 32-bit words (a trailing group
of fewer than 4 bytes is dropped; inputs here are always multiples
of 4). -/
def bytesToWords : List Nat → List Nat
  | b0 :: b1 :: b2 :: b3 :: rest =>
      (((b0 * 256 + b1) * 256 + b2) * 256 + b3) :: bytesToWords rest
  | _ => []

/-- SHA-256 message padding: append `0x80`, zeros, and the 64-bit
big-endian bit length, reaching a multiple of 64 bytes. -/
def sha256Pad (msg : List Nat) : List Nat :=
  let l := msg.length
  let zeros := (64 + 56 - (l + 1) % 64) % 64
  msg ++ 0x80 :: (List.replicate zeros 0 ++ beBytes 8 (l * 8))

/-- Function `σ₀` of FIPS 180-4. -/
def smallSigma0 (x : Nat) : Nat := rotr32 x 7 ^^^ rotr32 x 18 ^^^ shr32 x 3

/-- Function `σ₁` of FIPS 180-4. -/
def smallSigma1 (x : Nat) : Nat := rotr32 x 17 ^^^ rotr32 x 19 ^^^ shr32 x 10

/-- Function `Σ₀` of FIPS 180-4. -/
def bigSigma0 (x : Nat) : Nat := rotr32 x 2 ^^^ rotr32 x 13 ^^^ rotr32 x 22

/-- Function `Σ₁` of FIPS 180-4. -/
def bigSigma1 (x : Nat) : Nat := rotr32 x 6 ^^^ rotr32 x 11 ^^^ rotr32 x 25

/-- Message schedule: the 16 block words extended to 64. -/
def msgSchedule (block : List Nat) : List Nat :=
  (List.range 48).foldl
    (fun w i =>
      w ++ [add32 (add32 (smallSigma1 (w.getD (i + 14) 0)) (w.getD (i + 9) 0))
              (add32 (smallSigma0 (w.getD (i + 1) 0)) (w.getD i 0))])
    (bytesToWords block)

/-- One round of the SHA-256 compression function on the 8-word working
state `[a,b,c,d,e,f,g,h]`. -/
def sha256Round (k w : Nat) (s : List Nat) : List Nat :=
  let a := s.getD 0 0
  let b := s.getD 1 0
  let c := s.getD 2 0
  let d := s.getD 3 0
  let e := s.getD 4 0
  let f := s.getD 5 0
  let g := s.getD 6 0
  let t1 := add32 (add32 (add32 (s.getD 7 0) (bigSigma1 e))
      ((e &&& f) ^^^ (not32 e &&& g))) (add32 k w)
  let t2 := add32 (bigSigma0 a) ((a &&& b) ^^^ (a &&& c) ^^^ (b &&& c))
  [add32 t1 t2, a, b, c, add32 d t1, e, f, g]

/-- SHA-256 compression of one 64-byte block into the hash state. -/
def sha256Compress (hs : List Nat) (block : List Nat) : List Nat :=
  let w := msgSchedule block
  let s := (List.range 64).foldl
    (fun s i => sha256Round (shaK.getD i 0) (w.getD i 0) s) hs
  List.zipWith add32 hs s

/-- Fold the compression function over `n` consecutive 64-byte blocks
(the padded message has exactly `n` of them). -/
def sha256Blocks : Nat → List Nat → List Nat → List Nat
  | 0, hs, _ => hs
  | n + 1, hs, msg => sha256Blocks n (sha256Compress hs (msg.take 64)) (msg.drop 64)

/-- Embedding of Go's `sha256.Sum256`: the 32-byte SHA-256 digest. -/
def sha256Bytes (msg : List Nat) : List Nat :=
  ((sha256Blocks ((sha256Pad msg).length / 64) shaH0 (sha256Pad msg)).map
    (beBytes 4)).flatten

/-! ## AES-256 and CTR mode (Go `crypto/aes`, `cipher.NewCTR`)

FIPS 197 block cipher with a 256-bit key (14 rounds), and the CTR
stream of NIST SP 800-38A: the 16-byte IV is the initial counter block
and is incremented as a big-endian 128-bit integer. -/

/-- AES S-box (FIPS 197 figure 7), packed into one number with entry
`i` in bits `8*i .. 8*i+7`. -/
def sboxPacked : Nat :=
  0x16bb54b00f2d99416842e6bf0d89a18cdf2855cee9871e9b948ed9691198f8e19e1dc186b95735610ef6034866b53e708a8bbd4b1f74dde8c6b4a61c2e2578ba08ae7a65eaf4566ca94ed58d6d37c8e779e4959162acd3c25c2406490a3a32e0db0b5ede14b8ee4688902a22dc4f816073195d643d7ea7c41744975fec130ccdd2f3ff1021dab6bcf5389d928f40a351a89f3c507f02f94585334d43fbaaefd0cf584c4a39becb6a5bb1fc20ed00d153842fe329b3d63b52a05a6e1b1a2c830975b227ebe28012079a059618c323c7041531d871f1e5a534ccf73f362693fdb7c072a49cafa2d4adf04759fa7dc982ca76abd7fe2b670130c56f6bf27b777c63

/-- AES S-box as a byte list. -/
def sbox : List Nat :=
  (List.range 256).map (fun i => sboxPacked / 2 ^ (8 * i) % 2 ^ 8)

/-- S-box lookup. -/
def sboxByte (b : Nat) : Nat := sbox.getD b 0

/-- Round constants used by the AES-256 key expansion. -/
def rcon : List Nat := [0x01, 0x02, 0x04, 0x08, 0x10, 0x20, 0x40]

/-- S-box applied to each byte of a 32-bit word. -/
def subWord (w : Nat) : Nat := beNat ((beBytes 4 w).map sboxByte)

/-- Left byte rotation of a 32-bit word. -/
def rotWord (w : Nat) : Nat := w % 2 ^ 24 * 256 + w / 2 ^ 24

/-- Word `i` (for `8 ≤ i`) of the AES-256 key expansion, given the
previous words. -/
def keyExpandWord (w : List Nat) (i : Nat) : Nat :=
  let prev := w.getD (i - 1) 0
  let temp :=
    if i % 8 == 0 then subWord (rotWord prev) ^^^ rcon.getD (i / 8 - 1) 0 * 2 ^ 24
    else if i % 8 == 4 then subWord prev
    else prev
  w.getD (i - 8) 0 ^^^ temp

/-- AES-256 key expansion: 60 round-key words from the 32-byte key. -/
def keyExpansion (key : List Nat) : List Nat :=
  (List.range 52).foldl (fun w i => w ++ [keyExpandWord w (i + 8)])
    (bytesToWords key)

/-- Bytes of round key `r` (words `4r..4r+3`). -/
def roundKey (w : List Nat) (r : Nat) : List Nat :=
  (((w.drop (4 * r)).take 4).map (beBytes 4)).flatten

/-- SubBytes step. -/
def subBytes (s : List Nat) : List Nat := s.map sboxByte

/-- ShiftRows step on the column-major 16-byte state. -/
def shiftRows (s : List Nat) : List Nat :=
  [s.getD 0 0, s.getD 5 0, s.getD 10 0, s.getD 15 0,
   s.getD 4 0, s.getD 9 0, s.getD 14 0, s.getD 3 0,
   s.getD 8 0, s.getD 13 0, s.getD 2 0, s.getD 7 0,
   s.getD 12 0, s.getD 1 0, s.getD 6 0, s.getD 11 0]

/-- Multiplication by `x` in GF(2^8) modulo `x^8+x^4+x^3+x+1`. -/
def gfDouble (b : Nat) : Nat := if b < 128 then 2 * b else (2 * b % 256) ^^^ 0x1B

/-- Multiplication by `x + 1` in GF(2^8). -/
def gfTriple (b : Nat) : Nat := gfDouble b ^^^ b

/-- MixColumns applied to one 4-byte column. -/
def mixColumn (a0 a1 a2 a3 : Nat) : List Nat :=
  [gfDouble a0 ^^^ gfTriple a1 ^^^ a2 ^^^ a3,
   a0 ^^^ gfDouble a1 ^^^ gfTriple a2 ^^^ a3,
   a0 ^^^ a1 ^^^ gfDouble a2 ^^^ gfTriple a3,
   gfTriple a0 ^^^ a1 ^^^ a2 ^^^ gfDouble a3]

/-- MixColumns step on the 16-byte state. -/
def mixColumns (s : List Nat) : List Nat :=
  mixColumn (s.getD 0 0) (s.getD 1 0) (s.getD 2 0) (s.getD 3 0) ++
  mixColumn (s.getD 4 0) (s.getD 5 0) (s.getD 6 0) (s.getD 7 0) ++
  mixColumn (s.getD 8 0) (s.getD 9 0) (s.getD 10 0) (s.getD 11 0) ++
  mixColumn (s.getD 12 0) (s.getD 13 0) (s.getD 14 0) (s.getD 15 0)

/-- AddRoundKey step. -/
def addRoundKey (s rk : List Nat) : List Nat := List.zipWith Nat.xor s rk

/-- AES-256 encryption of one 16-byte block. -/
def aesEncryptBlock (key block : List Nat) : List Nat :=
  let w := keyExpansion key
  let s0 := addRoundKey block (roundKey w 0)
  let sMid := (List.range 13).foldl
    (fun s r => addRoundKey (mixColumns (shiftRows (subBytes s))) (roundKey w (r + 1)))
    s0
  addRoundKey (shiftRows (subBytes sMid)) (roundKey w 14)

/-- First `n` bytes of the AES-256-CTR keystream for the given key and
initial counter block (Go's `cipher.NewCTR` increments the full 16-byte
IV as a big-endian integer). -/
def ctrKeystream (key iv : List Nat) (n : Nat) : List Nat :=
  (((List.range ((n + 15) / 16)).map
    (fun i => aesEncryptBlock key (beBytes 16 ((beNat iv + i) % 2 ^ 128)))).flatten).take n

/-! ## The `attachment` package itself

Direct embedding of `attachments.go`.  String fields keep Go's `string`
type; the length checks compare character counts, which coincide with
Go's byte lengths on the ASCII strings base64 can produce (a non-ASCII
field fails decoding in both models with the same error).  `Encrypt`
and `Decrypt` return the updated descriptor to make the Go pointer
mutation explicit, and are `Option`-valued with `none` standing for a
nil-pointer panic. -/

/-- Go error values of the package. -/
inductive FileError where
  | hashMismatch
  | unsupportedVersion
  | unsupportedAlgorithm
  | invalidKey
  | invalidInitVector
deriving DecidableEq, Repr

/-- Decidable equality of `Except` results, used to evaluate `Decrypt`
outcomes on concrete inputs. -/
instance {e a : Type} [DecidableEq e] [DecidableEq a] : DecidableEq (Except e a) :=
  fun x y =>
    match x, y with
    | .error u, .error v => decidable_of_iff (u = v) (by simp)
    | .ok u, .ok v => decidable_of_iff (u = v) (by simp)
    | .error _, .ok _ => isFalse (by simp)
    | .ok _, .error _ => isFalse (by simp)

/-- Struct `JSONWebKey`. -/
structure JSONWebKey where
  key : String
  algorithm : String
  extractable : Bool
  keyType : String
  keyOps : List String
deriving DecidableEq, Repr

/-- Struct `EncryptedFileHashes`. -/
structure EncryptedFileHashes where
  sha256 : String
deriving DecidableEq, Repr

/-- Struct `decodedKeys` (`[keyLength]byte` and `[ivLength]byte`). -/
structure DecodedKeys where
  key : Bytes keyLength
  iv : Bytes ivLength
deriving DecidableEq

/-- Struct `EncryptedFile`; the nilable `decoded` pointer becomes an
`Option`. -/
structure EncryptedFile where
  key : JSONWebKey
  initVector : String
  hashes : EncryptedFileHashes
  version : String
  decoded : Option DecodedKeys
deriving DecidableEq

/-- Function `xorA256CTR`. -/
def xorA256CTR (source : List Nat) (key : Bytes keyLength) (iv : Bytes ivLength) :
    List Nat :=
  List.zipWith Nat.xor source (ctrKeystream key.val iv.val source.length)

/-- Function `genA256CTR`, with the random draws (32 key bytes, the 8
random IV bytes) passed in explicitly; the last 8 IV bytes stay zero. -/
def genA256CTR (keyRand : Bytes keyLength) (ivRand : Bytes 8) :
    Bytes keyLength × Bytes ivLength :=
  (keyRand, ⟨ivRand.val ++ List.replicate 8 0, by simp [ivRand.2, ivLength]⟩)

/-- Function `NewEncryptedFile`, parameterised by the random draws. -/
def newEncryptedFile (keyRand : Bytes keyLength) (ivRand : Bytes 8) :
    EncryptedFile :=
  let kiv := genA256CTR keyRand ivRand
  { key :=
      { key := b64Encode urlAlphabet kiv.1.val
        algorithm := "A256CTR"
        extractable := true
        keyType := "oct"
        keyOps := ["encrypt", "decrypt"] }
    initVector := b64Encode stdAlphabet kiv.2.val
    hashes := { sha256 := "" }
    version := "v2"
    decoded := some ⟨kiv.1, kiv.2⟩ }

/-- Method `decodeKeys`.  Go allocates the zeroed `decodedKeys` struct
and stores the pointer before decoding into it, so on a decode error
the cache stays populated with the partially decoded buffers. -/
def decodeKeys (ef : EncryptedFile) : Option FileError × EncryptedFile :=
  match ef.decoded with
  | some _ => (none, ef)
  | none =>
    if ef.key.key.length ≠ keyBase64Length then (some .invalidKey, ef)
    else if ef.initVector.length ≠ ivBase64Length then (some .invalidInitVector, ef)
    else if ¬ (goBase64Decode urlAlphabet ef.key.key).2 then
      (some .invalidKey,
       { ef with
           decoded := some ⟨fillBuf keyLength (goBase64Decode urlAlphabet ef.key.key).1,
             fillBuf ivLength []⟩ })
    else if ¬ (goBase64Decode stdAlphabet ef.initVector).2 then
      (some .invalidInitVector,
       { ef with
           decoded := some ⟨fillBuf keyLength (goBase64Decode urlAlphabet ef.key.key).1,
             fillBuf ivLength (goBase64Decode stdAlphabet ef.initVector).1⟩ })
    else
      (none,
       { ef with
           decoded := some ⟨fillBuf keyLength (goBase64Decode urlAlphabet ef.key.key).1,
             fillBuf ivLength (goBase64Decode stdAlphabet ef.initVector).1⟩ })

/-- Method `Encrypt`.  The result of `decodeKeys` is discarded, exactly
as in the source; `none` is the nil-pointer panic that happens when the
cache is still unset afterwards. -/
def encrypt (ef : EncryptedFile) (plaintext : List Nat) :
    Option (List Nat × EncryptedFile) :=
  let ef' := (decodeKeys ef).2
  match ef'.decoded with
  | none => none
  | some d =>
    let ciphertext := xorA256CTR plaintext d.key d.iv
    some (ciphertext,
      { ef' with hashes := { sha256 := b64Encode stdAlphabet (sha256Bytes ciphertext) } })

/-- Method `checkHash`. -/
def checkHash (ef : EncryptedFile) (ciphertext : List Nat) : Bool :=
  if ef.hashes.sha256.length ≠ hashBase64Length then false
  else
    let hDec := goBase64Decode stdAlphabet ef.hashes.sha256
    if ¬ hDec.2 then false
    else (fillBuf hashLength hDec.1).val == sha256Bytes ciphertext

/-- Method `Decrypt`.  The guard chain is the source's `if`/`else if`
ladder; the final `none` is the (unreachable) nil dereference after a
successful `decodeKeys`. -/
def decrypt (ef : EncryptedFile) (ciphertext : List Nat) :
    Option (Except FileError (List Nat) × EncryptedFile) :=
  if ef.version ≠ "v2" then some (.error .unsupportedVersion, ef)
  else if ef.key.algorithm ≠ "A256CTR" then some (.error .unsupportedAlgorithm, ef)
  else if ¬ checkHash ef ciphertext then some (.error .hashMismatch, ef)
  else
    match decodeKeys ef with
    | (some e, ef') => some (.error e, ef')
    | (none, ef') =>
      match ef'.decoded with
      | some d => some (.ok (xorA256CTR ciphertext d.key d.iv), ef')
      | none => none

/-! ## Supporting lemmas -/

/-- Folding a step that preserves an invariant preserves it overall. -/
theorem foldl_preserve {α β : Type} (P : α → Prop) (f : α → β → α)
    (h : ∀ a b, P a → P (f a b)) : ∀ (L : List β) (a : α), P a → P (L.foldl f a)
  | [], _, ha => ha
  | b :: L, a, ha => foldl_preserve P f h L (f a b) (h a b ha)

/-- Appending one element per step grows the list by the step count. -/
theorem foldl_append_one_length {β : Type} (g : List Nat → β → Nat) :
    ∀ (L : List β) (a : List Nat),
      (L.foldl (fun w i => w ++ [g w i]) a).length = a.length + L.length
  | [], _ => by simp
  | b :: L, a => by
      rw [List.foldl_cons, foldl_append_one_length g L]
      simp
      omega

/-- Flattening blocks of constant size `k`. -/
theorem flatten_const_length {β : Type} (f : β → List Nat) (k : Nat)
    (hf : ∀ b, (f b).length = k) :
    ∀ L : List β, ((L.map f).flatten).length = k * L.length
  | [] => by simp
  | b :: L => by
      simp [flatten_const_length f k hf L, hf b]
      ring

/-- Character-level base64 round-trip for the standard alphabet. -/
theorem b64CharRT_std : ∀ i : Nat, i < 64 →
    b64DecChar stdAlphabet (b64EncChar stdAlphabet i) = some i := by
  decide

/-- Character-level base64 round-trip for the URL-safe alphabet. -/
theorem b64CharRT_url : ∀ i : Nat, i < 64 →
    b64DecChar urlAlphabet (b64EncChar urlAlphabet i) = some i := by
  decide

/-- Length of the unpadded base64 encoding. -/
theorem b64EncodeGroups_length (alph : List Char) :
    ∀ l : List Nat, (b64EncodeGroups alph l).length =
      l.length / 3 * 4 + (if l.length % 3 = 0 then 0 else l.length % 3 + 1)
  | [] => by simp [b64EncodeGroups]
  | [_] => by simp [b64EncodeGroups]
  | [_, _] => by simp [b64EncodeGroups]
  | _ :: _ :: _ :: rest => by
      simp [b64EncodeGroups, b64EncodeGroups_length alph rest]
      split_ifs <;> omega

/-- Decoding inverts encoding on byte inputs, for any alphabet whose
characters decode back to their indices. -/
theorem b64DecodeGroups_encode (alph : List Char)
    (hAlph : ∀ i : Nat, i < 64 → b64DecChar alph (b64EncChar alph i) = some i) :
    ∀ l : List Nat, (∀ b ∈ l, b < 256) →
      b64DecodeGroups alph (b64EncodeGroups alph l) = (l, true)
  | [], _ => rfl
  | [a], h => by
      have ha : a < 256 := h a (by simp)
      have h1 := hAlph (a / 4) (by omega)
      have h2 := hAlph (a % 4 * 16) (by omega)
      simp [b64EncodeGroups, b64DecodeGroups, h1, h2]
      omega
  | [a, b], h => by
      have ha : a < 256 := h a (by simp)
      have hb : b < 256 := h b (by simp)
      have h1 := hAlph (a / 4) (by omega)
      have h2 := hAlph (a % 4 * 16 + b / 16) (by omega)
      have h3 := hAlph (b % 16 * 4) (by omega)
      simp [b64EncodeGroups, b64DecodeGroups, h1, h2, h3]
      omega
  | a :: b :: c :: rest, h => by
      have ha : a < 256 := h a (by simp)
      have hb : b < 256 := h b (by simp)
      have hc : c < 256 := h c (by simp)
      have h1 := hAlph (a / 4) (by omega)
      have h2 := hAlph (a % 4 * 16 + b / 16) (by omega)
      have h3 := hAlph (b % 16 * 4 + c / 64) (by omega)
      have h4 := hAlph (c % 64) (by omega)
      have ih := b64DecodeGroups_encode alph hAlph rest
        (fun x hx => h x (by simp [hx]))
      simp [b64EncodeGroups, b64DecodeGroups, h1, h2, h3, h4, ih]
      omega

/-- Big-endian serialization has the requested length. -/
theorem beBytes_length : ∀ n x, (beBytes n x).length = n
  | 0, _ => rfl
  | n + 1, x => by simp [beBytes, beBytes_length n]

/-- Big-endian serialization produces bytes. -/
theorem beBytes_lt : ∀ n x, ∀ b ∈ beBytes n x, b < 256
  | 0, _ => by simp [beBytes]
  | n + 1, x => by
      simp only [beBytes, List.mem_append, List.mem_singleton]
      rintro b (hb | rfl)
      · exact beBytes_lt n (x / 256) b hb
      · exact Nat.mod_lt _ (by omega)

/-- One SHA-256 round returns an 8-word state. -/
theorem sha256Round_length (k w : Nat) (s : List Nat) :
    (sha256Round k w s).length = 8 := by
  simp [sha256Round]

/-- Compression preserves the 8-word hash state. -/
theorem sha256Compress_length (hs block : List Nat) (h : hs.length = 8) :
    (sha256Compress hs block).length = 8 := by
  have hfold := foldl_preserve (fun s : List Nat => s.length = 8)
    (fun s i => sha256Round (shaK.getD i 0) ((msgSchedule block).getD i 0) s)
    (fun a b _ => sha256Round_length _ _ a) (List.range 64) hs h
  simp only [sha256Compress, List.length_zipWith]
  omega

/-- The block fold preserves the 8-word hash state. -/
theorem sha256Blocks_length : ∀ (n : Nat) (hs msg : List Nat), hs.length = 8 →
    (sha256Blocks n hs msg).length = 8
  | 0, _, _, h => h
  | n + 1, hs, msg, h =>
      sha256Blocks_length n _ (msg.drop 64) (sha256Compress_length _ _ h)

/-- The SHA-256 digest has 32 bytes. -/
theorem sha256Bytes_length (msg : List Nat) : (sha256Bytes msg).length = 32 := by
  unfold sha256Bytes
  rw [flatten_const_length (beBytes 4) 4 (fun b => beBytes_length 4 b)]
  rw [sha256Blocks_length _ _ _ (by decide)]

/-- Every byte of the SHA-256 digest is below 256. -/
theorem sha256Bytes_lt (msg : List Nat) : ∀ b ∈ sha256Bytes msg, b < 256 := by
  unfold sha256Bytes
  intro b hb
  simp only [List.mem_flatten, List.mem_map] at hb
  obtain ⟨l, ⟨w, _, rfl⟩, hbl⟩ := hb
  exact beBytes_lt 4 w b hbl

/-- Variant of `foldl_preserve` whose step hypothesis is restricted to
members of the folded list. -/
theorem foldl_preserve_mem {α β : Type} (P : α → Prop) (f : α → β → α) :
    ∀ L : List β, (∀ a b, b ∈ L → P a → P (f a b)) → ∀ a : α, P a → P (L.foldl f a)
  | [], _, _, ha => ha
  | b :: L, h, a, ha =>
      foldl_preserve_mem P f L (fun x y hy => h x y (by simp [hy]))
        (f a b) (h a b (by simp) ha)

/-- Word grouping yields a quarter of the byte count. -/
theorem bytesToWords_length : ∀ l : List Nat, (bytesToWords l).length = l.length / 4
  | [] => by simp [bytesToWords]
  | [_] => by simp [bytesToWords]
  | [_, _] => by simp [bytesToWords]
  | [_, _, _] => by simp [bytesToWords]
  | _ :: _ :: _ :: _ :: rest => by
      simp [bytesToWords, bytesToWords_length rest]
      omega

/-- AES-256 key expansion of a 32-byte key has 60 words. -/
theorem keyExpansion_length (key : List Nat) (h : key.length = 32) :
    (keyExpansion key).length = 60 := by
  unfold keyExpansion
  rw [foldl_append_one_length]
  rw [bytesToWords_length, h]
  simp

/-- Round keys of the expanded key have 16 bytes. -/
theorem roundKey_length (w : List Nat) (hw : w.length = 60) (r : Nat) (hr : r ≤ 14) :
    (roundKey w r).length = 16 := by
  unfold roundKey
  rw [flatten_const_length (beBytes 4) 4 (fun b => beBytes_length 4 b)]
  simp [List.length_take, List.length_drop, hw]
  omega

/-- MixColumns always returns 16 bytes. -/
theorem mixColumns_length (s : List Nat) : (mixColumns s).length = 16 := by
  simp [mixColumns, mixColumn]

/-- ShiftRows always returns 16 bytes. -/
theorem shiftRows_length (s : List Nat) : (shiftRows s).length = 16 := by
  simp [shiftRows]

/-- AES block encryption of a 16-byte block is 16 bytes. -/
theorem aesEncryptBlock_length (key block : List Nat) (hk : key.length = 32)
    (hb : block.length = 16) : (aesEncryptBlock key block).length = 16 := by
  have hw : (keyExpansion key).length = 60 := keyExpansion_length key hk
  simp only [aesEncryptBlock]
  have h0 : (addRoundKey block (roundKey (keyExpansion key) 0)).length = 16 := by
    simp [addRoundKey, List.length_zipWith, hb, roundKey_length _ hw 0 (by omega)]
  have hmid := foldl_preserve_mem (fun s : List Nat => s.length = 16)
    (fun s r => addRoundKey (mixColumns (shiftRows (subBytes s)))
      (roundKey (keyExpansion key) (r + 1)))
    (List.range 13)
    (fun a b hb _ => by
      have hb13 : b < 13 := List.mem_range.mp hb
      simp [addRoundKey, List.length_zipWith, mixColumns_length,
        roundKey_length _ hw (b + 1) (by omega)])
    _ h0
  simp [addRoundKey, List.length_zipWith, shiftRows_length,
    roundKey_length _ hw 14 (by omega)]

/-- The CTR keystream has exactly the requested length. -/
theorem ctrKeystream_length (key iv : List Nat) (n : Nat) (hk : key.length = 32) :
    (ctrKeystream key iv n).length = n := by
  unfold ctrKeystream
  rw [List.length_take,
    flatten_const_length _ 16
      (fun i => aesEncryptBlock_length key _ hk (beBytes_length 16 _))]
  simp only [List.length_range]
  omega

/-- `xorA256CTR` preserves the buffer length. -/
theorem xorA256CTR_length (source : List Nat) (key : Bytes keyLength)
    (iv : Bytes ivLength) : (xorA256CTR source key iv).length = source.length := by
  have hk : key.val.length = 32 := key.2
  simp [xorA256CTR, List.length_zipWith, ctrKeystream_length _ _ _ hk]

/-- XOR-ing the same stream twice is the identity, when the stream is
long enough. -/
theorem zipWith_xor_cancel : ∀ p ks : List Nat, p.length ≤ ks.length →
    List.zipWith Nat.xor (List.zipWith Nat.xor p ks) ks = p
  | [], _, _ => by simp
  | _ :: _, [], h => by simp at h
  | a :: p, k :: ks, h => by
      simp only [List.zipWith_cons_cons, List.cons.injEq]
      refine ⟨Nat.xor_cancel_right k a, zipWith_xor_cancel p ks (by simpa using h)⟩

/-- Running the CTR XOR twice with the same key and IV restores the
input: the core of the `Encrypt`/`Decrypt` round-trip. -/
theorem xorA256CTR_involution (p : List Nat) (key : Bytes keyLength)
    (iv : Bytes ivLength) :
    xorA256CTR (xorA256CTR p key iv) key iv = p := by
  have hk : key.val.length = 32 := key.2
  have hlen : (List.zipWith Nat.xor p (ctrKeystream key.val iv.val p.length)).length
      = p.length := by
    simp [List.length_zipWith, ctrKeystream_length _ _ _ hk]
  unfold xorA256CTR
  rw [hlen]
  exact zipWith_xor_cancel p _ (by rw [ctrKeystream_length _ _ _ hk])

/-- Writing a buffer of exactly the right length fills it completely. -/
theorem fillBuf_val (n : Nat) (l : List Nat) (h : l.length = n) :
    (fillBuf n l).val = l := by
  simp only [fillBuf]
  rw [← h, List.take_left]

/-- With a populated cache, `decodeKeys` is a no-op. -/
theorem decodeKeys_of_some (ef : EncryptedFile) (d : DecodedKeys)
    (h : ef.decoded = some d) : decodeKeys ef = (none, ef) := by
  simp [decodeKeys, h]

/-- `decodeKeys` never touches the serializable fields. -/
theorem decodeKeys_fields (ef : EncryptedFile) :
    (decodeKeys ef).2.key = ef.key ∧ (decodeKeys ef).2.initVector = ef.initVector ∧
    (decodeKeys ef).2.hashes = ef.hashes ∧ (decodeKeys ef).2.version = ef.version := by
  unfold decodeKeys
  cases hd : ef.decoded <;> simp <;> split_ifs <;> simp

/-- `decodeKeys` fails only with the two decoding errors. -/
theorem decodeKeys_error_cases (ef : EncryptedFile) (e : FileError)
    (h : (decodeKeys ef).1 = some e) : e = .invalidKey ∨ e = .invalidInitVector := by
  obtain ⟨k, iv, hs, v, dec⟩ := ef
  cases dec with
  | some d => simp [decodeKeys] at h
  | none =>
    simp only [decodeKeys] at h
    split_ifs at h <;> simp_all

/-- A successful `decodeKeys` leaves the cache populated. -/
theorem decodeKeys_none_ok (ef : EncryptedFile) (h : (decodeKeys ef).1 = none) :
    (decodeKeys ef).2.decoded.isSome := by
  obtain ⟨k, iv, hs, v, dec⟩ := ef
  cases dec with
  | some d => simp [decodeKeys]
  | none =>
    simp only [decodeKeys] at h ⊢
    split_ifs at h ⊢ <;> simp_all

/-- `checkHash` reads only the digest field. -/
theorem checkHash_only_hashes (ef ef' : EncryptedFile) (c : List Nat)
    (h : ef'.hashes = ef.hashes) : checkHash ef' c = checkHash ef c := by
  simp [checkHash, h]

/-- Evaluation of `Encrypt` when the decoded cache is populated. -/
theorem encrypt_of_cached (ef : EncryptedFile) (d : DecodedKeys)
    (h : ef.decoded = some d) (p : List Nat) :
    encrypt ef p = some (xorA256CTR p d.key d.iv,
      { ef with hashes :=
          ⟨b64Encode stdAlphabet (sha256Bytes (xorA256CTR p d.key d.iv))⟩ }) := by
  simp only [encrypt, decodeKeys_of_some ef d h, h]

/-- A base64-encoded digest has the expected 43 characters. -/
theorem digest_b64_length (c : List Nat) :
    (b64Encode stdAlphabet (sha256Bytes c)).length = hashBase64Length := by
  show (b64EncodeGroups stdAlphabet (sha256Bytes c)).length = hashBase64Length
  rw [b64EncodeGroups_length, sha256Bytes_length]
  decide

/-- Decoding a base64-encoded digest returns the digest bytes. -/
theorem digest_b64_decode (c : List Nat) :
    goBase64Decode stdAlphabet (b64Encode stdAlphabet (sha256Bytes c))
      = (sha256Bytes c, true) :=
  b64DecodeGroups_encode stdAlphabet b64CharRT_std _ (sha256Bytes_lt c)

/-- The digest check passes on the digest `Encrypt` just stored. -/
theorem checkHash_of_digest (ef : EncryptedFile) (c : List Nat)
    (h : ef.hashes.sha256 = b64Encode stdAlphabet (sha256Bytes c)) :
    checkHash ef c = true := by
  unfold checkHash
  rw [h, digest_b64_length, digest_b64_decode]
  simp
  exact fillBuf_val _ _ (sha256Bytes_length c)

/-- The digest check fails whenever the stored digest hashes a
different byte sequence than the one checked. -/
theorem checkHash_of_digest_ne (ef : EncryptedFile) (c c' : List Nat)
    (h : ef.hashes.sha256 = b64Encode stdAlphabet (sha256Bytes c))
    (hne : sha256Bytes c' ≠ sha256Bytes c) : checkHash ef c' = false := by
  unfold checkHash
  rw [h, digest_b64_length, digest_b64_decode]
  have hfv := fillBuf_val hashLength (sha256Bytes c) (sha256Bytes_length c)
  simp [hfv]
  exact fun he => hne he.symm

/-- `Decrypt` rejects a wrong version first. -/
theorem decrypt_bad_version (ef : EncryptedFile) (c : List Nat)
    (hv : ef.version ≠ "v2") :
    decrypt ef c = some (.error .unsupportedVersion, ef) := by
  simp [decrypt, hv]

/-- `Decrypt` rejects a wrong algorithm second. -/
theorem decrypt_bad_algorithm (ef : EncryptedFile) (c : List Nat)
    (hv : ef.version = "v2") (ha : ef.key.algorithm ≠ "A256CTR") :
    decrypt ef c = some (.error .unsupportedAlgorithm, ef) := by
  simp [decrypt, hv, ha]

/-- `Decrypt` rejects a failed digest check third. -/
theorem decrypt_bad_hash (ef : EncryptedFile) (c : List Nat)
    (hv : ef.version = "v2") (ha : ef.key.algorithm = "A256CTR")
    (hh : checkHash ef c = false) :
    decrypt ef c = some (.error .hashMismatch, ef) := by
  simp [decrypt, hv, ha, hh]

/-- Evaluation of `Decrypt` when all guards pass. -/
theorem decrypt_of_good (ef : EncryptedFile) (d : DecodedKeys) (c : List Nat)
    (hv : ef.version = "v2") (ha : ef.key.algorithm = "A256CTR")
    (hh : checkHash ef c = true) (hd : ef.decoded = some d) :
    decrypt ef c = some (.ok (xorA256CTR c d.key d.iv), ef) := by
  simp only [decrypt, hv, ha, hh, decodeKeys_of_some ef d hd, hd]
  simp

/-! ## Concrete inputs used by witnesses and counterexamples -/

/-- All-zero 32-byte key. -/
def zeroKey : Bytes keyLength := ⟨List.replicate 32 0, by decide⟩

/-- All-zero 8-byte random half of an IV. -/
def zeroIvHalf : Bytes 8 := ⟨List.replicate 8 0, by decide⟩

/-- A JSON web key with valid shape whose key bytes are all zero
(43 `A` characters decode to 32 zero bytes). -/
def allAKey : JSONWebKey :=
  { key := String.mk (List.replicate 43 'A')
    algorithm := "A256CTR"
    extractable := true
    keyType := "oct"
    keyOps := ["encrypt", "decrypt"] }

/-- A descriptor whose key field has the right length but is not valid
base64, with an IV of 22 `A`s and the digest of the empty ciphertext;
the decoded cache is unset, as after deserialization. -/
def badKeyEf : EncryptedFile :=
  { key := { allAKey with key := String.mk (List.replicate 43 '!') }
    initVector := String.mk (List.replicate 22 'A')
    hashes := { sha256 := b64Encode stdAlphabet (sha256Bytes []) }
    version := "v2"
    decoded := none }

/-- A well-formed deserialized descriptor (all-zero key and IV, digest
of the empty ciphertext, cache unset). -/
def goodEf : EncryptedFile :=
  { key := allAKey
    initVector := String.mk (List.replicate 22 'A')
    hashes := { sha256 := b64Encode stdAlphabet (sha256Bytes []) }
    version := "v2"
    decoded := none }

/-! ## The claims -/

/-- C1: for every plaintext byte sequence P (including the empty
sequence), on a freshly created descriptor (`NewEncryptedFile`),
`Decrypt(Encrypt(P))` succeeds and returns P. -/
theorem c1_round_trip (keyRand : Bytes keyLength) (ivRand : Bytes 8) (P : List Nat) :
    (encrypt (newEncryptedFile keyRand ivRand) P).bind
      (fun r => (decrypt r.2 r.1).map Prod.fst) = some (.ok P) := by
  have hd : (newEncryptedFile keyRand ivRand).decoded
      = some ⟨keyRand, (genA256CTR keyRand ivRand).2⟩ := rfl
  rw [encrypt_of_cached _ _ hd P]
  have hd₂ : ({ newEncryptedFile keyRand ivRand with
      hashes := ⟨b64Encode stdAlphabet (sha256Bytes
        (xorA256CTR P keyRand (genA256CTR keyRand ivRand).2))⟩ } :
      EncryptedFile).decoded = some ⟨keyRand, (genA256CTR keyRand ivRand).2⟩ := rfl
  rw [Option.some_bind, decrypt_of_good _ ⟨keyRand, (genA256CTR keyRand ivRand).2⟩ _
    rfl rfl (checkHash_of_digest _ _ rfl) hd₂]
  simp [xorA256CTR_involution]

/-- Flip bit `i` of a byte buffer (bit `i % 8` of byte `i / 8`). -/
def flipBit (l : List Nat) (i : Nat) : List Nat :=
  l.set (i / 8) (l.getD (i / 8) 0 ^^^ 2 ^ (i % 8))

/-- The state `badKeyEf` reaches after a failed `decodeKeys`: the cache
is populated with all-zero buffers. -/
def badKeyEfCached : EncryptedFile :=
  { badKeyEf with
      decoded := some ⟨⟨List.replicate 32 0, by decide⟩, ⟨List.replicate 16 0, by decide⟩⟩ }

/-- C2: `Decrypt` checks version, algorithm, digest, key, IV in this
order, short-circuiting on the first failure: a wrong version wins over
a wrong digest, and `InvalidKey` can only be reported once the version,
algorithm and digest checks have all passed. -/
theorem c2_check_order :
    (∀ ef c, ef.version ≠ "v2" → checkHash ef c = false →
      decrypt ef c = some (.error .unsupportedVersion, ef)) ∧
    (∀ ef c, ef.version = "v2" → ef.key.algorithm ≠ "A256CTR" →
      decrypt ef c = some (.error .unsupportedAlgorithm, ef)) ∧
    (∀ ef c, ef.version = "v2" → ef.key.algorithm = "A256CTR" →
      checkHash ef c = false → decrypt ef c = some (.error .hashMismatch, ef)) ∧
    (∀ ef c out, decrypt ef c = some out → out.1 = .error .invalidKey →
      ef.version = "v2" ∧ ef.key.algorithm = "A256CTR" ∧ checkHash ef c = true) := by
  refine ⟨fun ef c hv _ => decrypt_bad_version ef c hv,
    fun ef c hv ha => decrypt_bad_algorithm ef c hv ha,
    fun ef c hv ha hh => decrypt_bad_hash ef c hv ha hh,
    fun ef c out hd hout => ?_⟩
  by_cases hv : ef.version = "v2"
  · by_cases ha : ef.key.algorithm = "A256CTR"
    · by_cases hh : checkHash ef c = true
      · exact ⟨hv, ha, hh⟩
      · rw [decrypt_bad_hash ef c hv ha (by simpa using hh)] at hd
        obtain rfl := Option.some.inj hd
        simp at hout
    · rw [decrypt_bad_algorithm ef c hv ha] at hd
      obtain rfl := Option.some.inj hd
      simp at hout
  · rw [decrypt_bad_version ef c hv] at hd
    obtain rfl := Option.some.inj hd
    simp at hout

/-- Witness for C2 at concrete descriptors: a wrong version together
with a wrong digest reports `UnsupportedVersion`; a wrong algorithm
reports `UnsupportedAlgorithm`; a wrong digest alone reports
`HashMismatch`; and the descriptor whose `Decrypt` reports `InvalidKey`
indeed passes the version, algorithm and digest checks. -/
theorem c2_check_order_witness :
    decrypt { badKeyEf with version := "v1", hashes := ⟨""⟩ } []
      = some (.error .unsupportedVersion, { badKeyEf with version := "v1", hashes := ⟨""⟩ }) ∧
    decrypt { goodEf with key := { allAKey with algorithm := "AES" } } []
      = some (.error .unsupportedAlgorithm,
          { goodEf with key := { allAKey with algorithm := "AES" } }) ∧
    decrypt { goodEf with hashes := ⟨""⟩ } []
      = some (.error .hashMismatch, { goodEf with hashes := ⟨""⟩ }) ∧
    (badKeyEf.version = "v2" ∧ badKeyEf.key.algorithm = "A256CTR" ∧
      checkHash badKeyEf [] = true) :=
  ⟨c2_check_order.1 _ [] (by decide) (by decide),
   c2_check_order.2.1 _ [] (by decide) (by decide),
   c2_check_order.2.2.1 _ [] (by decide) (by decide) (by decide),
   c2_check_order.2.2.2 badKeyEf [] (.error .invalidKey, badKeyEfCached)
     (by decide) (by decide)⟩

/-- C3: flipping any single bit of a ciphertext produced by `Encrypt`
on a fresh descriptor makes `Decrypt` fail with `HashMismatch` — given
that the flip changes the SHA-256 digest, which is the collision-freeness
property of the hash that the scheme relies on and that no program
logic can discharge. -/
theorem c3_tamper_detection (keyRand : Bytes keyLength) (ivRand : Bytes 8)
    (P ct : List Nat) (ef' : EncryptedFile)
    (henc : encrypt (newEncryptedFile keyRand ivRand) P = some (ct, ef'))
    (i : Nat) (hi : i < 8 * ct.length)
    (hcoll : sha256Bytes (flipBit ct i) ≠ sha256Bytes ct) :
    decrypt ef' (flipBit ct i) = some (.error .hashMismatch, ef') := by
  rw [encrypt_of_cached _ ⟨keyRand, (genA256CTR keyRand ivRand).2⟩ rfl P] at henc
  simp only [Option.some.injEq, Prod.mk.injEq] at henc
  obtain ⟨hct, hef⟩ := henc
  subst hct
  subst hef
  exact decrypt_bad_hash _ _ rfl rfl
    (checkHash_of_digest_ne _ _ _ rfl hcoll)

/-- Witness for C3: a concrete one-byte plaintext encrypted under the
all-zero key, with bit 0 of the ciphertext flipped. -/
theorem c3_tamper_detection_witness :
    decrypt { newEncryptedFile zeroKey zeroIvHalf with
        hashes := ⟨b64Encode stdAlphabet (sha256Bytes
          (xorA256CTR [0] zeroKey (genA256CTR zeroKey zeroIvHalf).2))⟩ }
      (flipBit (xorA256CTR [0] zeroKey (genA256CTR zeroKey zeroIvHalf).2) 0)
      = some (.error .hashMismatch,
        { newEncryptedFile zeroKey zeroIvHalf with
          hashes := ⟨b64Encode stdAlphabet (sha256Bytes
            (xorA256CTR [0] zeroKey (genA256CTR zeroKey zeroIvHalf).2))⟩ }) :=
  c3_tamper_detection zeroKey zeroIvHalf [0]
    (xorA256CTR [0] zeroKey (genA256CTR zeroKey zeroIvHalf).2) _ rfl 0
    (by rw [xorA256CTR_length]; decide) (by decide)

/-- The state `goodEf` reaches after a successful `decodeKeys`: the
cache holds the all-zero key and IV its fields encode. -/
def goodEfCached : EncryptedFile :=
  { goodEf with
      decoded := some ⟨⟨List.replicate 32 0, by decide⟩, ⟨List.replicate 16 0, by decide⟩⟩ }

/-- C4 counterexample: on a descriptor whose key field is 43 characters
of invalid base64 and whose cache is unset, `decodeKeys` fails with
`InvalidKey`, yet `Encrypt` still returns a ciphertext — the decode
failure is discarded, not propagated (the `Encrypt` signature has no
error channel at all). -/
theorem c4_counterexample :
    (decodeKeys badKeyEf).1 = some .invalidKey ∧
    (encrypt badKeyEf []).map Prod.fst = some [] := by
  decide

/-- C4 amended: `Encrypt` ignores the result of `decodeKeys`.  When the
cache is unset, it crashes with a nil dereference exactly when a field
has the wrong length (so `decodeKeys` returns before allocating the
cache); with correct lengths it always produces output, even when the
fields are invalid base64 and the cache holds partially decoded bytes. -/
theorem c4_encrypt_ignores_decode_failure (ef : EncryptedFile) (p : List Nat)
    (hd : ef.decoded = none) :
    encrypt ef p = none ↔
      (ef.key.key.length ≠ keyBase64Length ∨ ef.initVector.length ≠ ivBase64Length) := by
  obtain ⟨k, iv, hs, v, dec⟩ := ef
  simp only at hd
  subst hd
  simp only [encrypt, decodeKeys]
  split_ifs <;> simp_all

/-- Witness for C4 amended: `Encrypt` on a cache-less descriptor whose
key field is too short crashes (wrong length), and the iff reports
exactly that. -/
theorem c4_encrypt_ignores_decode_failure_witness :
    encrypt { badKeyEf with key := { allAKey with key := "abc" } } [] = none ↔
      (({ badKeyEf with key := { allAKey with key := "abc" } } :
          EncryptedFile).key.key.length ≠ keyBase64Length ∨
        ({ badKeyEf with key := { allAKey with key := "abc" } } :
          EncryptedFile).initVector.length ≠ ivBase64Length) :=
  c4_encrypt_ignores_decode_failure _ [] (by decide)

/-- C5 counterexample: on a descriptor with a well-formed digest (for
the empty ciphertext) but an undecodable key field, the first `Decrypt`
fails with `InvalidKey`, while the second `Decrypt` of the very same
ciphertext on the same (mutated) descriptor succeeds and returns a
value: the failed decode left the cache populated. -/
theorem c5_counterexample :
    (decrypt badKeyEf []).map Prod.fst = some (.error .invalidKey) ∧
    (decrypt badKeyEf []).bind (fun r => (decrypt r.2 []).map Prod.fst)
      = some (.ok []) := by
  decide

/-- C5 amended: `Decrypt` is repeatable whenever the first call does not
fail with `InvalidKey` or `InvalidInitVector`: the repeated call returns
the same outcome and the same descriptor state.  After one of those two
failures the cache is left populated with partially decoded buffers, so
the repeated call instead succeeds (see the counterexample). -/
theorem c5_decrypt_repeatable (ef : EncryptedFile) (c : List Nat)
    (r : Except FileError (List Nat)) (ef1 : EncryptedFile)
    (hcall : decrypt ef c = some (r, ef1))
    (hk : r ≠ .error .invalidKey) (hiv : r ≠ .error .invalidInitVector) :
    decrypt ef1 c = some (r, ef1) := by
  by_cases hv : ef.version = "v2"
  · by_cases ha : ef.key.algorithm = "A256CTR"
    · by_cases hh : checkHash ef c = true
      · rcases hdk : decodeKeys ef with ⟨oe, ef'⟩
        have hfields := decodeKeys_fields ef
        rw [hdk] at hfields
        cases oe with
        | some e =>
          have he : e = .invalidKey ∨ e = .invalidInitVector :=
            decodeKeys_error_cases ef e (by rw [hdk])
          have : decrypt ef c = some (.error e, ef') := by
            simp [decrypt, hv, ha, hh, hdk]
          rw [this] at hcall
          simp only [Option.some.injEq, Prod.mk.injEq] at hcall
          obtain ⟨rfl, rfl⟩ := hcall
          rcases he with rfl | rfl
          · exact absurd rfl hk
          · exact absurd rfl hiv
        | none =>
          have hsome : ef'.decoded.isSome := by
            have := decodeKeys_none_ok ef (by rw [hdk])
            rwa [hdk] at this
          obtain ⟨d, hd'⟩ := Option.isSome_iff_exists.mp hsome
          have : decrypt ef c = some (.ok (xorA256CTR c d.key d.iv), ef') := by
            simp [decrypt, hv, ha, hh, hdk, hd']
          rw [this] at hcall
          simp only [Option.some.injEq, Prod.mk.injEq] at hcall
          obtain ⟨rfl, rfl⟩ := hcall
          exact decrypt_of_good ef' d c (hfields.2.2.2.trans hv)
            (by rw [hfields.1]; exact ha)
            ((checkHash_only_hashes ef ef' c hfields.2.2.1).trans hh) hd'
      · rw [decrypt_bad_hash ef c hv ha (by simpa using hh)] at hcall
        simp only [Option.some.injEq, Prod.mk.injEq] at hcall
        obtain ⟨rfl, rfl⟩ := hcall
        exact decrypt_bad_hash ef c hv ha (by simpa using hh)
    · rw [decrypt_bad_algorithm ef c hv ha] at hcall
      simp only [Option.some.injEq, Prod.mk.injEq] at hcall
      obtain ⟨rfl, rfl⟩ := hcall
      exact decrypt_bad_algorithm ef c hv ha
  · rw [decrypt_bad_version ef c hv] at hcall
    simp only [Option.some.injEq, Prod.mk.injEq] at hcall
    obtain ⟨rfl, rfl⟩ := hcall
    exact decrypt_bad_version ef c hv

/-- Witness for C5 amended: a successful first `Decrypt` on a
deserialized all-zero descriptor repeats identically. -/
theorem c5_decrypt_repeatable_witness :
    decrypt goodEfCached [] = some (.ok [], goodEfCached) :=
  c5_decrypt_repeatable goodEf [] (.ok []) goodEfCached (by decide)
    (by decide) (by decide)

/-- C6: a fresh descriptor's decoded 16-byte IV always ends in 8 zero
bytes, and the serialized IV field is the standard unpadded base64
encoding of the full 16-byte buffer. -/
theorem c6_iv_structure (keyRand : Bytes keyLength) (ivRand : Bytes 8) :
    ((newEncryptedFile keyRand ivRand).decoded.map (fun d => d.iv.val.drop 8))
      = some (List.replicate 8 0) ∧
    (newEncryptedFile keyRand ivRand).initVector
      = b64Encode stdAlphabet (ivRand.val ++ List.replicate 8 0) := by
  constructor
  · have h1 : ((newEncryptedFile keyRand ivRand).decoded.map
        (fun d => d.iv.val.drop 8))
        = some ((ivRand.val ++ List.replicate 8 0).drop 8) := rfl
    rw [h1]
    nth_rewrite 1 [← ivRand.2]
    rw [List.drop_left]
  · rfl

/-- Inversion for `Decrypt`: the returned descriptor is either the
input (early guard failures) or the output of `decodeKeys`. -/
theorem decrypt_some_snd (ef : EncryptedFile) (c : List Nat)
    (out : Except FileError (List Nat) × EncryptedFile)
    (h : decrypt ef c = some out) :
    out.2 = ef ∨ out.2 = (decodeKeys ef).2 := by
  by_cases hv : ef.version = "v2"
  · by_cases ha : ef.key.algorithm = "A256CTR"
    · by_cases hh : checkHash ef c = true
      · rcases hdk : decodeKeys ef with ⟨oe, ef'⟩
        cases oe with
        | some e =>
          have : decrypt ef c = some (.error e, ef') := by
            simp [decrypt, hv, ha, hh, hdk]
          rw [this] at h
          obtain rfl := Option.some.inj h
          right; rfl
        | none =>
          have hsome : ef'.decoded.isSome := by
            have h0 := decodeKeys_none_ok ef (by rw [hdk])
            rwa [hdk] at h0
          obtain ⟨d, hd'⟩ := Option.isSome_iff_exists.mp hsome
          have : decrypt ef c = some (.ok (xorA256CTR c d.key d.iv), ef') := by
            simp [decrypt, hv, ha, hh, hdk, hd']
          rw [this] at h
          obtain rfl := Option.some.inj h
          right; rfl
      · rw [decrypt_bad_hash ef c hv ha (by simpa using hh)] at h
        obtain rfl := Option.some.inj h
        left; rfl
    · rw [decrypt_bad_algorithm ef c hv ha] at h
      obtain rfl := Option.some.inj h
      left; rfl
  · rw [decrypt_bad_version ef c hv] at h
    obtain rfl := Option.some.inj h
    left; rfl

/-- Inversion for a successful `Decrypt`: the plaintext is the CTR
stream of the cached keys applied to the ciphertext. -/
theorem decrypt_ok_plaintext (ef : EncryptedFile) (c p : List Nat)
    (ef2 : EncryptedFile) (h : decrypt ef c = some (.ok p, ef2)) :
    ∃ d : DecodedKeys, ef2.decoded = some d ∧ p = xorA256CTR c d.key d.iv := by
  by_cases hv : ef.version = "v2"
  · by_cases ha : ef.key.algorithm = "A256CTR"
    · by_cases hh : checkHash ef c = true
      · rcases hdk : decodeKeys ef with ⟨oe, ef'⟩
        cases oe with
        | some e =>
          have : decrypt ef c = some (.error e, ef') := by
            simp [decrypt, hv, ha, hh, hdk]
          rw [this] at h
          simp at h
        | none =>
          have hsome : ef'.decoded.isSome := by
            have h0 := decodeKeys_none_ok ef (by rw [hdk])
            rwa [hdk] at h0
          obtain ⟨d, hd'⟩ := Option.isSome_iff_exists.mp hsome
          have : decrypt ef c = some (.ok (xorA256CTR c d.key d.iv), ef') := by
            simp [decrypt, hv, ha, hh, hdk, hd']
          rw [this] at h
          simp only [Option.some.injEq, Prod.mk.injEq, Except.ok.injEq] at h
          obtain ⟨rfl, rfl⟩ := h
          exact ⟨d, hd', rfl⟩
      · rw [decrypt_bad_hash ef c hv ha (by simpa using hh)] at h
        simp at h
    · rw [decrypt_bad_algorithm ef c hv ha] at h
      simp at h
  · rw [decrypt_bad_version ef c hv] at h
    simp at h

/-- C7: `Encrypt` returns a ciphertext of the plaintext's length, and a
successful `Decrypt` returns a plaintext of the ciphertext's length. -/
theorem c7_length_preservation :
    (∀ ef p ct ef2, encrypt ef p = some (ct, ef2) → ct.length = p.length) ∧
    (∀ ef c p ef2, decrypt ef c = some (.ok p, ef2) → p.length = c.length) := by
  constructor
  · intro ef p ct ef2 h
    simp only [encrypt] at h
    rcases hdec : (decodeKeys ef).2.decoded with _ | d
    · rw [hdec] at h; simp at h
    · rw [hdec] at h
      simp only [Option.some.injEq, Prod.mk.injEq] at h
      obtain ⟨rfl, _⟩ := h
      exact xorA256CTR_length p d.key d.iv
  · intro ef c p ef2 h
    obtain ⟨d, _, rfl⟩ := decrypt_ok_plaintext ef c p ef2 h
    exact xorA256CTR_length c d.key d.iv

/-- Witness for C7: concrete encrypt and decrypt calls on the empty
buffer with the all-zero deserialized descriptor. -/
theorem c7_length_preservation_witness :
    encrypt goodEfCached [] = some ([], goodEfCached) ∧
    decrypt goodEfCached [] = some (.ok [], goodEfCached) ∧
    ([] : List Nat).length = ([] : List Nat).length ∧
    ([] : List Nat).length = ([] : List Nat).length :=
  ⟨by decide, by decide,
   c7_length_preservation.1 goodEfCached [] [] goodEfCached (by decide),
   c7_length_preservation.2 goodEfCached [] [] goodEfCached (by decide)⟩

/-- C8: encryption is deterministic in the decoded key, IV and
plaintext: two descriptors sharing the same decoded cache produce the
same ciphertext and store the same digest for the same plaintext. -/
theorem c8_deterministic (ef1 ef2 : EncryptedFile) (d : DecodedKeys)
    (p : List Nat) (h1 : ef1.decoded = some d) (h2 : ef2.decoded = some d) :
    (encrypt ef1 p).map Prod.fst = (encrypt ef2 p).map Prod.fst ∧
    (encrypt ef1 p).map (fun r => r.2.hashes.sha256)
      = (encrypt ef2 p).map (fun r => r.2.hashes.sha256) := by
  rw [encrypt_of_cached ef1 d h1 p, encrypt_of_cached ef2 d h2 p]
  exact ⟨rfl, rfl⟩

/-- Witness for C8: two descriptors differing in their version share a
decoded cache; encrypting the same plaintext agrees. -/
theorem c8_deterministic_witness :
    goodEfCached.decoded
        = some ⟨⟨List.replicate 32 0, by decide⟩, ⟨List.replicate 16 0, by decide⟩⟩ ∧
    ({ goodEfCached with version := "v9" } : EncryptedFile).decoded
        = some ⟨⟨List.replicate 32 0, by decide⟩, ⟨List.replicate 16 0, by decide⟩⟩ ∧
    ((encrypt goodEfCached [0]).map Prod.fst
        = (encrypt { goodEfCached with version := "v9" } [0]).map Prod.fst ∧
      (encrypt goodEfCached [0]).map (fun r => r.2.hashes.sha256)
        = (encrypt { goodEfCached with version := "v9" } [0]).map
            (fun r => r.2.hashes.sha256)) :=
  ⟨by decide, by decide,
   c8_deterministic goodEfCached { goodEfCached with version := "v9" }
     ⟨⟨List.replicate 32 0, by decide⟩, ⟨List.replicate 16 0, by decide⟩⟩ [0]
     (by decide) (by decide)⟩

/-- C9: every fresh descriptor carries version `"v2"`, algorithm
`"A256CTR"`, `extractable = true`, key type `"oct"`, key operations
`["encrypt", "decrypt"]`, an empty digest, the unpadded URL-safe base64
of the 32 key bytes in the key field, and a pre-populated decoded cache
holding exactly the generated key and IV (so the key field decodes back
to the cached key bytes). -/
theorem c9_new_file_fields (keyRand : Bytes keyLength) (ivRand : Bytes 8) :
    (newEncryptedFile keyRand ivRand).version = "v2" ∧
    (newEncryptedFile keyRand ivRand).key.algorithm = "A256CTR" ∧
    (newEncryptedFile keyRand ivRand).key.extractable = true ∧
    (newEncryptedFile keyRand ivRand).key.keyType = "oct" ∧
    (newEncryptedFile keyRand ivRand).key.keyOps = ["encrypt", "decrypt"] ∧
    (newEncryptedFile keyRand ivRand).hashes.sha256 = "" ∧
    (newEncryptedFile keyRand ivRand).key.key = b64Encode urlAlphabet keyRand.val ∧
    ((newEncryptedFile keyRand ivRand).decoded.map (fun d => (d.key.val, d.iv.val)))
      = some (keyRand.val, ivRand.val ++ List.replicate 8 0) ∧
    ((∀ b ∈ keyRand.val, b < 256) →
      goBase64Decode urlAlphabet (newEncryptedFile keyRand ivRand).key.key
        = (keyRand.val, true)) :=
  ⟨rfl, rfl, rfl, rfl, rfl, rfl, rfl, rfl,
   fun hb => b64DecodeGroups_encode urlAlphabet b64CharRT_url keyRand.val hb⟩

/-- Witness for C9: the all-zero key is made of bytes, and its key
field decodes back to it. -/
theorem c9_new_file_fields_witness :
    (∀ b ∈ zeroKey.val, b < 256) ∧
    goBase64Decode urlAlphabet (newEncryptedFile zeroKey zeroIvHalf).key.key
      = (zeroKey.val, true) :=
  ⟨by decide,
   (c9_new_file_fields zeroKey zeroIvHalf).2.2.2.2.2.2.2.2 (by decide)⟩

/-- C10: `Decrypt` never changes the serializable fields (key object,
IV string, digest, version), and `Encrypt` changes none of them except
the digest.  Input buffers are values in this embedding; the source
only ever writes into freshly allocated result buffers. -/
theorem c10_frame :
    (∀ ef c out, decrypt ef c = some out →
      out.2.key = ef.key ∧ out.2.initVector = ef.initVector ∧
      out.2.hashes = ef.hashes ∧ out.2.version = ef.version) ∧
    (∀ ef p out, encrypt ef p = some out →
      out.2.key = ef.key ∧ out.2.initVector = ef.initVector ∧
      out.2.version = ef.version) := by
  constructor
  · intro ef c out h
    rcases decrypt_some_snd ef c out h with h2 | h2 <;> rw [h2]
    · exact ⟨rfl, rfl, rfl, rfl⟩
    · exact decodeKeys_fields ef
  · intro ef p out h
    have hfields := decodeKeys_fields ef
    simp only [encrypt] at h
    rcases hdec : (decodeKeys ef).2.decoded with _ | d
    · rw [hdec] at h; simp at h
    · rw [hdec] at h
      obtain rfl := Option.some.inj h
      exact ⟨hfields.1, hfields.2.1, hfields.2.2.2⟩

/-- Witness for C10: concrete decrypt and encrypt calls leave the
serializable fields of the all-zero descriptor unchanged. -/
theorem c10_frame_witness :
    decrypt goodEfCached [] = some (.ok [], goodEfCached) ∧
    encrypt goodEfCached [] = some ([], goodEfCached) ∧
    (goodEfCached.key = goodEfCached.key ∧
      goodEfCached.initVector = goodEfCached.initVector ∧
      goodEfCached.hashes = goodEfCached.hashes ∧
      goodEfCached.version = goodEfCached.version) ∧
    (goodEfCached.key = goodEfCached.key ∧
      goodEfCached.initVector = goodEfCached.initVector ∧
      goodEfCached.version = goodEfCached.version) :=
  ⟨by decide, by decide,
   c10_frame.1 goodEfCached [] (.ok [], goodEfCached) (by decide),
   c10_frame.2 goodEfCached [] ([], goodEfCached) (by decide)⟩

end Attachment
